import Mathlib

/-!
# Smart Hub ESP32 firmware (`embedded/src/main.cpp`)

A shallow embedding of the firmware's sample / report / decide / actuate cycle.

* The firmware's own functions (`getCurrentTimeString`, `readTemperature`, `readMotion`,
  `sendSensorData`, `getAndApplyDecision`, `loop`) are translated statement by statement into
  functions on a `Board`: the commanded level of every pin together with the chronological
  trace of the calls the firmware makes to its peripherals and libraries.
* What the outside world answers in one cycle (sensor values, clock, HTTP responses) is an
  explicit input, `CycleInputs`.
* The libraries the firmware calls (ArduinoJson, `strftime`, `getLocalTime`) are not part of the
  repository.  They are modelled in the namespaces `ArduinoJson` and `Platform`; every theorem
  about a successfully deserialized document is stated over the result of `deserializeJson`.
* An Arduino `String` is modelled by a Lean `String`, its `length()` by the UTF-8 byte size.
* `Serial` diagnostics are output only and are not modelled.  Real time (`delay`, the polling
  inside `getLocalTime`) appears only as an event of the trace.
* `setup()` and `connectToWiFi()` run once before the first cycle and are not modelled.
-/

namespace SmartHub

/-- A C `float` / `double` value: not-a-number, an infinity, or the finite value
`± mantissa * 10 ^ exponent` (every finite binary floating point number is exactly such a
decimal; `21.5` is `finite false 215 (-1)`). -/
inductive FloatValue where
  | nan
  | inf (negative : Bool)
  | finite (negative : Bool) (mantissa : Nat) (exponent : Int)
deriving DecidableEq, Repr

/-! ## ArduinoJson: values -/

namespace ArduinoJson

/-- The value held by a `JsonDocument` / `JsonVariant`. Object members keep insertion order. -/
inductive JsonVariant where
  | null
  | boolean (value : Bool)
  | integer (value : Int)
  | float (value : FloatValue)
  | string (value : String)
  | array (elements : List JsonVariant)
  | object (members : List (String × JsonVariant))
deriving Repr

/-- The error codes of `DeserializationError` other than `Ok`. -/
inductive DeserializationError where
  | EmptyInput
  | IncompleteInput
  | InvalidInput
  | NoMemory
  | TooDeep
deriving DecidableEq, Repr

/-- Member lookup in an object's member list (first member with that key). -/
def lookupMember (key : String) : List (String × JsonVariant) → Option JsonVariant
  | [] => none
  | (k, v) :: rest => if k = key then some v else lookupMember key rest

/-- Replace the value of member `key`, or append the member when the key is new. -/
def upsertMember (key : String) (value : JsonVariant) :
    List (String × JsonVariant) → List (String × JsonVariant)
  | [] => [(key, value)]
  | (k, v) :: rest =>
    if k = key then (k, value) :: rest else (k, v) :: upsertMember key value rest

/-- Modelled from the spec: ArduinoJson's `doc[key]` read access (the library is not in the
repository). The member with that key when the document is an object that has one; unbound
(`none`) when the key is absent or the document is not an object. -/
def JsonVariant.getMember (doc : JsonVariant) (key : String) : Option JsonVariant :=
  match doc with
  | .object members => lookupMember key members
  | _ => none

/-- Modelled from the spec: ArduinoJson's `doc[key] = value` (the library is not in the
repository). An empty (null) document becomes an object; an object gets the member replaced or
appended; any other document is left as it is. -/
def JsonVariant.setMember (doc : JsonVariant) (key : String) (value : JsonVariant) :
    JsonVariant :=
  match doc with
  | .null => .object [(key, value)]
  | .object members => .object (upsertMember key value members)
  | other => other

/-- Modelled from the spec: ArduinoJson's conversion of a bound variant to `bool`
(`as<bool>()`, the library is not in the repository). A boolean converts to itself, a number
to "is not zero", null to `false`, and any string, array or object to `true`. The theorems
below only use the conversion of booleans and of unbound members. -/
def JsonVariant.asBool : JsonVariant → Bool
  | .null => false
  | .boolean b => b
  | .integer n => n ≠ 0
  | .float (.finite _ mantissa _) => mantissa ≠ 0
  | .float (.inf _) => true
  | .float .nan => true
  | .string _ => true
  | .array _ => true
  | .object _ => true

/-- The implicit conversion to `bool` of the proxy `doc[key]`, as in `doc[key] ? a : b`: an
unbound proxy (absent key, or a document that is not an object) converts to `false`. -/
def memberAsBool (doc : JsonVariant) (key : String) : Bool :=
  match doc.getMember key with
  | none => false
  | some v => v.asBool

/-! ## ArduinoJson: writing JSON text -/

/-- The decimal digit `char(d % 10 + '0')`. -/
def digitChar (d : Nat) : Char := Char.ofNat (48 + d % 10)

/-- The loop of `TextFormatter::writeInteger`: digits are produced from the least significant
one and pushed in front of what is already written; `steps` bounds the iterations. -/
def writeDigits : Nat → Nat → List Char → List Char
  | 0, _, acc => acc
  | steps + 1, value, acc =>
    if value / 10 = 0 then digitChar value :: acc
    else writeDigits steps (value / 10) (digitChar value :: acc)

/-- Unsigned `TextFormatter::writeInteger`: the decimal digits of `value`, at least one. -/
def writeInteger (value : Nat) : List Char := writeDigits (value + 1) value []

/-- Signed `TextFormatter::writeInteger`: a minus sign, then the digits of the magnitude. -/
def writeSignedInteger (value : Int) : List Char :=
  if value < 0 then '-' :: writeInteger value.natAbs else writeInteger value.natAbs

/-- The digit loop of `TextFormatter::writeDecimals`: exactly `width` digits of `value`. -/
def writeDecimalDigits : Nat → Nat → List Char → List Char
  | 0, _, acc => acc
  | width + 1, value, acc => writeDecimalDigits width (value / 10) (digitChar value :: acc)

/-- `TextFormatter::writeDecimals`: a decimal point and exactly `width` digits. -/
def writeDecimals (value width : Nat) : List Char := '.' :: writeDecimalDigits width value []

/-- The decimal decomposition `FloatParts` of a non-negative finite value. -/
structure FloatParts where
  integral : Nat
  decimal : Nat
  exponent : Int
  decimalPlaces : Nat
deriving DecidableEq, Repr

/-- One step of the first loop of `FloatParts::normalize` on the fraction `num / den`:
divide by `10 ^ bit` when the value is at least that large. -/
def scaleDown (acc : (Nat × Nat) × Int) (bit : Nat) : (Nat × Nat) × Int :=
  if 10 ^ bit * acc.1.2 ≤ acc.1.1 then ((acc.1.1, acc.1.2 * 10 ^ bit), acc.2 + bit) else acc

/-- One step of the second loop of `FloatParts::normalize` on the fraction `num / den`:
multiply by `10 ^ bit` when the value is below `10 ^ (1 - bit)`. -/
def scaleUp (acc : (Nat × Nat) × Int) (bit : Nat) : (Nat × Nat) × Int :=
  if acc.1.1 * 10 ^ bit < 10 * acc.1.2 then ((acc.1.1 * 10 ^ bit, acc.1.2), acc.2 - bit)
  else acc

/-- `FloatParts::normalize` on the value `num / den`, in exact arithmetic: values of at least
`1e7` are scaled down and values of at most `1e-5` are scaled up by powers of ten, the decimal
exponent taken out is returned with the scaled fraction. -/
def normalize (num den : Nat) : (Nat × Nat) × Int :=
  if 10 ^ 7 * den ≤ num then
    [256, 128, 64, 32, 16, 8, 4, 2, 1].foldl scaleDown ((num, den), 0)
  else if 0 < num ∧ num * 10 ^ 5 ≤ den then
    [256, 128, 64, 32, 16, 8, 4, 2, 1].foldl scaleUp ((num, den), 0)
  else ((num, den), 0)

/-- The loop `for (tmp = integral; tmp >= 10; tmp /= 10)` of the `FloatParts` constructor:
one decimal place is given up for every integral digit after the first. -/
def reducePlaces : Nat → Nat → Nat × Nat → Nat × Nat
  | 0, _, acc => acc
  | steps + 1, tmp, (maxDecimalPart, decimalPlaces) =>
    if 10 ≤ tmp then reducePlaces steps (tmp / 10) (maxDecimalPart / 10, decimalPlaces - 1)
    else (maxDecimalPart, decimalPlaces)

/-- The loop `while (decimal % 10 == 0 && decimalPlaces > 0)` of the `FloatParts`
constructor: trailing zeros of the decimal part are removed. -/
def removeTrailingZeros : Nat → Nat → Nat × Nat
  | decimal, 0 => (decimal, 0)
  | decimal, places + 1 =>
    if decimal % 10 = 0 then removeTrailingZeros (decimal / 10) places
    else (decimal, places + 1)

/-- The constructor of `FloatParts<double>` for the non-negative value
`mantissa * 10 ^ exponent`, with nine significant decimal places. The C++ computes the same
quantities in double precision; here they are computed exactly. -/
def floatParts (mantissa : Nat) (exponent : Int) : FloatParts :=
  let num := if 0 ≤ exponent then mantissa * 10 ^ exponent.toNat else mantissa
  let den := if 0 ≤ exponent then 1 else 10 ^ (-exponent).toNat
  let scaled := normalize num den
  let n := scaled.1.1
  let d := scaled.1.2
  let integral := n / d
  let places := reducePlaces integral integral (1000000000, 9)
  let maxDecimalPart := places.1
  let remainder := (n - integral * d) * maxDecimalPart
  let decimal := remainder / d + (2 * (remainder % d)) / d
  let carry := decide (maxDecimalPart ≤ decimal)
  let decimal := if carry then 0 else decimal
  let integral := if carry then integral + 1 else integral
  let wraps := carry && decide (scaled.2 ≠ 0) && decide (10 ≤ integral)
  let exponent10 := if wraps then scaled.2 + 1 else scaled.2
  let integral := if wraps then 1 else integral
  let trimmed := removeTrailingZeros decimal places.2
  { integral := integral, decimal := trimmed.1, exponent := exponent10,
    decimalPlaces := trimmed.2 }

/-- The tail of `TextFormatter::writeFloat`: integral part, decimals when there are any,
and the exponent when it is not zero. -/
def writeFloatParts (parts : FloatParts) : List Char :=
  writeInteger parts.integral
    ++ (if parts.decimalPlaces ≠ 0 then writeDecimals parts.decimal parts.decimalPlaces else [])
    ++ (if parts.exponent ≠ 0 then 'e' :: writeSignedInteger parts.exponent else [])

/-- Modelled from the spec: `TextFormatter::writeFloat` of ArduinoJson (not in the repository)
with the library defaults (`ARDUINOJSON_ENABLE_NAN` and `ARDUINOJSON_ENABLE_INFINITY` off):
NaN and the infinities are written as `null`, a negative value as a minus sign followed by
its magnitude. -/
def writeFloat : FloatValue → List Char
  | .nan => "null".toList
  | .inf _ => "null".toList
  | .finite negative mantissa exponent =>
    (if negative ∧ mantissa ≠ 0 then ['-'] else []) ++ writeFloatParts (floatParts mantissa exponent)

/-- `TextFormatter::writeChar`: the characters with a short escape sequence are written
escaped, every other character as it is. -/
def writeChar (c : Char) : List Char :=
  if c = Char.ofNat 34 then [Char.ofNat 92, Char.ofNat 34]
  else if c = Char.ofNat 92 then [Char.ofNat 92, Char.ofNat 92]
  else if c = Char.ofNat 8 then [Char.ofNat 92, 'b']
  else if c = Char.ofNat 12 then [Char.ofNat 92, 'f']
  else if c = Char.ofNat 10 then [Char.ofNat 92, 'n']
  else if c = Char.ofNat 13 then [Char.ofNat 92, 'r']
  else if c = Char.ofNat 9 then [Char.ofNat 92, 't']
  else [c]

/-- `TextFormatter::writeString`: the escaped characters between double quotes. -/
def writeString (s : String) : List Char :=
  Char.ofNat 34 :: (s.toList.flatMap writeChar ++ [Char.ofNat 34])

mutual
/-- `JsonSerializer`: the compact JSON text of a value. -/
def writeVariant : JsonVariant → List Char
  | .null => "null".toList
  | .boolean b => if b then "true".toList else "false".toList
  | .integer n => writeSignedInteger n
  | .float f => writeFloat f
  | .string s => writeString s
  | .array elements => '[' :: (writeElements elements ++ [']'])
  | .object members => Char.ofNat 123 :: (writeMembers members ++ [Char.ofNat 125])
/-- The elements of an array, separated by commas. -/
def writeElements : List JsonVariant → List Char
  | [] => []
  | [v] => writeVariant v
  | v :: w :: rest => writeVariant v ++ ',' :: writeElements (w :: rest)
/-- The members of an object, `"key":value`, separated by commas. -/
def writeMembers : List (String × JsonVariant) → List Char
  | [] => []
  | [(k, v)] => writeString k ++ ':' :: writeVariant v
  | (k, v) :: m :: rest => writeString k ++ ':' :: writeVariant v ++ ',' :: writeMembers (m :: rest)
end

/-- Modelled from the spec: ArduinoJson's `serializeJson(doc, String&)` (the library is not in
the repository): the compact JSON text of the document. The fixed capacity of
`StaticJsonDocument<256>` is not modelled. -/
def serializeJson (doc : JsonVariant) : String := String.mk (writeVariant doc)

/-! ## ArduinoJson: reading JSON text -/

/-- What a reading step returns: the value read and the input left, or an error code. -/
abbrev Reader (α : Type) := Except DeserializationError (α × List Char)

/-- The whitespace of JSON text: space, tab, line feed, carriage return. -/
def isSpace (c : Char) : Bool := c = ' ' ∨ c.toNat = 9 ∨ c.toNat = 10 ∨ c.toNat = 13

/-- The input after its leading whitespace. -/
def skipSpaces : List Char → List Char
  | [] => []
  | c :: rest => if isSpace c then skipSpaces rest else c :: rest

/-- Whether the character is a decimal digit. -/
def isDigit (c : Char) : Bool := 48 ≤ c.toNat ∧ c.toNat ≤ 57

/-- The leading decimal digits of the input, and the input after them. -/
def takeDigits : List Char → List Char × List Char
  | [] => ([], [])
  | c :: rest =>
    if isDigit c then ((takeDigits rest).1.cons c, (takeDigits rest).2) else ([], c :: rest)

/-- The number written by a list of decimal digits. -/
def digitsValue (digits : List Char) : Nat :=
  digits.foldl (fun acc c => 10 * acc + (c.toNat - 48)) 0

/-- The value of a hexadecimal digit. -/
def hexValue (c : Char) : Option Nat :=
  if 48 ≤ c.toNat ∧ c.toNat ≤ 57 then some (c.toNat - 48)
  else if 97 ≤ c.toNat ∧ c.toNat ≤ 102 then some (c.toNat - 87)
  else if 65 ≤ c.toNat ∧ c.toNat ≤ 70 then some (c.toNat - 55)
  else none

/-- The four hexadecimal digits of a `\u` escape. -/
def parseHex4 : List Char → Reader Nat
  | a :: b :: c :: d :: rest =>
    match hexValue a, hexValue b, hexValue c, hexValue d with
    | some x, some y, some z, some w => .ok (((x * 16 + y) * 16 + z) * 16 + w, rest)
    | _, _, _, _ => .error .InvalidInput
  | _ => .error .IncompleteInput

/-- The character a one-letter escape sequence stands for. -/
def unescapeChar (c : Char) : Option Char :=
  if c = Char.ofNat 34 then some (Char.ofNat 34)
  else if c = Char.ofNat 92 then some (Char.ofNat 92)
  else if c = '/' then some '/'
  else if c = 'b' then some (Char.ofNat 8)
  else if c = 'f' then some (Char.ofNat 12)
  else if c = 'n' then some (Char.ofNat 10)
  else if c = 'r' then some (Char.ofNat 13)
  else if c = 't' then some (Char.ofNat 9)
  else none

/-- The second half of a surrogate pair: `\u` and a low surrogate, combined with the high
surrogate `high` into one code point. -/
def parseLowSurrogate (high : Nat) : List Char → Reader Char
  | [] => .error .IncompleteInput
  | [_] => .error .IncompleteInput
  | b :: u :: rest =>
    if b = Char.ofNat 92 ∧ u = 'u' then
      match parseHex4 rest with
      | .error e => .error e
      | .ok (low, rest2) =>
        if 56320 ≤ low ∧ low < 57344 then
          .ok (Char.ofNat (65536 + (high - 55296) * 1024 + (low - 56320)), rest2)
        else .error .InvalidInput
    else .error .InvalidInput

/-- What follows a backslash inside a string: the character the escape sequence stands for. -/
def parseEscape : List Char → Reader Char
  | [] => .error .IncompleteInput
  | e :: rest =>
    if e = 'u' then
      match parseHex4 rest with
      | .error err => .error err
      | .ok (unit, rest2) =>
        if 55296 ≤ unit ∧ unit < 56320 then parseLowSurrogate unit rest2
        else if 56320 ≤ unit ∧ unit < 57344 then .error .InvalidInput
        else .ok (Char.ofNat unit, rest2)
    else
      match unescapeChar e with
      | none => .error .InvalidInput
      | some c => .ok (c, rest)

/-- The characters of a string after its opening quote, up to the closing quote; `fuel`
bounds the number of characters read (a bound above the length of the input is never
reached) and `acc` holds, reversed, what was read so far. -/
def parseStringBody : Nat → List Char → List Char → Reader String
  | 0, _, _ => .error .IncompleteInput
  | fuel + 1, input, acc =>
    match input with
    | [] => .error .IncompleteInput
    | c :: rest =>
      if c = Char.ofNat 34 then .ok (String.mk acc.reverse, rest)
      else if c = Char.ofNat 92 then
        match parseEscape rest with
        | .error e => .error e
        | .ok (ch, rest2) => parseStringBody fuel rest2 (ch :: acc)
      else if c.toNat < 32 then .error .InvalidInput
      else parseStringBody fuel rest (c :: acc)

/-- A string, the input standing right after its opening quote. -/
def parseQuotedString (input : List Char) : Reader String :=
  parseStringBody (input.length + 1) input []

/-- The rest of a keyword (`true`, `false`, `null`): its characters must follow exactly. -/
def skipKeyword : List Char → List Char → Except DeserializationError (List Char)
  | [], input => .ok input
  | _ :: _, [] => .error .IncompleteInput
  | k :: keyword, c :: rest => if k = c then skipKeyword keyword rest else .error .InvalidInput

/-- The integral part of a number: at least one digit, and no leading zero before another
digit. -/
def parseIntegral (input : List Char) : Reader (List Char) :=
  let int := takeDigits input
  if int.1 = [] then .error (if input = [] then .IncompleteInput else .InvalidInput)
  else if int.1.head? = some '0' ∧ int.1.length ≠ 1 then .error .InvalidInput
  else .ok (int.1, int.2)

/-- The optional fraction of a number: a decimal point and at least one digit. The digits of
the fraction are returned, none when there is no fraction. -/
def parseFraction (input : List Char) : Reader (List Char) :=
  match input with
  | [] => .ok ([], [])
  | c :: rest =>
    if c = '.' then
      if (takeDigits rest).1 = [] then
        .error (if rest = [] then .IncompleteInput else .InvalidInput)
      else .ok ((takeDigits rest).1, (takeDigits rest).2)
    else .ok ([], c :: rest)

/-- The digits of an exponent after `e` and the optional sign: at least one digit. -/
def parseExponentDigits (negative : Bool) (input : List Char) : Reader (Option Int) :=
  if (takeDigits input).1 = [] then
    .error (if input = [] then .IncompleteInput else .InvalidInput)
  else
    .ok (some (if negative then -(digitsValue (takeDigits input).1 : Int)
      else (digitsValue (takeDigits input).1 : Int)), (takeDigits input).2)

/-- The optional exponent of a number: `e` or `E`, an optional sign, at least one digit.
`none` when there is no exponent. -/
def parseExponent (input : List Char) : Reader (Option Int) :=
  match input with
  | [] => .ok (none, [])
  | e :: rest =>
    if e = 'e' ∨ e = 'E' then
      match rest with
      | [] => .error .IncompleteInput
      | sign :: digits =>
        if sign = '-' then parseExponentDigits true digits
        else if sign = '+' then parseExponentDigits false digits
        else parseExponentDigits false (sign :: digits)
    else .ok (none, e :: rest)

/-- The value of a number literal. A literal without fraction and exponent that fits a 64-bit
integer is an integer; every other literal is the float `± mantissa * 10 ^ exponent`. -/
def makeNumber (negative : Bool) (int frac : List Char) (exponent : Option Int) : JsonVariant :=
  if frac = [] ∧ exponent = none ∧
      (if negative then digitsValue int ≤ 2 ^ 63 else digitsValue int < 2 ^ 64) then
    .integer (if negative then -(digitsValue int : Int) else (digitsValue int : Int))
  else
    .float (.finite negative (digitsValue (int ++ frac)) (exponent.getD 0 - frac.length))

/-- A number: an optional minus sign, an integral part, an optional fraction, an optional
exponent. -/
def parseNumericValue (input : List Char) : Reader JsonVariant :=
  let negative := decide (input.head? = some '-')
  match parseIntegral (if negative then input.tail else input) with
  | .error e => .error e
  | .ok (int, rest) =>
    match parseFraction rest with
    | .error e => .error e
    | .ok (frac, rest2) =>
      match parseExponent rest2 with
      | .error e => .error e
      | .ok (exponent, rest3) => .ok (makeNumber negative int frac exponent, rest3)

/-- The elements of an array after the first has been found to be there: a value, then `]`
or a comma and the next element. `fuel` bounds the number of elements (a bound above the
length of the input is never reached). -/
def parseElements (parseElement : List Char → Reader JsonVariant) :
    Nat → List Char → List JsonVariant → Reader (List JsonVariant)
  | 0, _, _ => .error .IncompleteInput
  | fuel + 1, input, acc =>
    match parseElement input with
    | .error e => .error e
    | .ok (v, rest) =>
      match skipSpaces rest with
      | [] => .error .IncompleteInput
      | c :: rest2 =>
        if c = ']' then .ok ((v :: acc).reverse, rest2)
        else if c = ',' then parseElements parseElement fuel rest2 (v :: acc)
        else .error .InvalidInput

/-- An array, the input standing right after `[`. -/
def parseArray (parseElement : List Char → Reader JsonVariant) (input : List Char) :
    Reader JsonVariant :=
  match skipSpaces input with
  | [] => .error .IncompleteInput
  | c :: rest =>
    if c = ']' then .ok (.array [], rest)
    else
      match parseElements parseElement (input.length + 1) (c :: rest) [] with
      | .error e => .error e
      | .ok (elements, rest2) => .ok (.array elements, rest2)

/-- The members of an object after the first has been found to be there: a quoted key, a
colon, a value, then `}` or a comma and the next member. A key that comes again replaces the
value of its member. `fuel` bounds the number of members (a bound above the length of the
input is never reached). -/
def parseMembers (parseElement : List Char → Reader JsonVariant) :
    Nat → List Char → List (String × JsonVariant) → Reader (List (String × JsonVariant))
  | 0, _, _ => .error .IncompleteInput
  | fuel + 1, input, acc =>
    match skipSpaces input with
    | [] => .error .IncompleteInput
    | q :: afterQuote =>
      if q = Char.ofNat 34 then
        match parseQuotedString afterQuote with
        | .error e => .error e
        | .ok (key, rest) =>
          match skipSpaces rest with
          | [] => .error .IncompleteInput
          | colon :: rest2 =>
            if colon = ':' then
              match parseElement rest2 with
              | .error e => .error e
              | .ok (v, rest3) =>
                match skipSpaces rest3 with
                | [] => .error .IncompleteInput
                | c :: rest4 =>
                  if c = Char.ofNat 125 then .ok (upsertMember key v acc, rest4)
                  else if c = ',' then
                    parseMembers parseElement fuel rest4 (upsertMember key v acc)
                  else .error .InvalidInput
            else .error .InvalidInput
      else .error .InvalidInput

/-- An object, the input standing right after its opening brace. -/
def parseObject (parseElement : List Char → Reader JsonVariant) (input : List Char) :
    Reader JsonVariant :=
  match skipSpaces input with
  | [] => .error .IncompleteInput
  | c :: rest =>
    if c = Char.ofNat 125 then .ok (.object [], rest)
    else
      match parseMembers parseElement (input.length + 1) (c :: rest) [] with
      | .error e => .error e
      | .ok (members, rest2) => .ok (.object members, rest2)

/-- One JSON value, after optional whitespace. `nestingLimit` is the number of levels of
arrays and objects that may still be opened: a container met when it is zero is refused with
`TooDeep`. `found` tells whether a character other than whitespace was met before, which
separates an empty input from an incomplete one. -/
def parseVariant (nestingLimit : Nat) (found : Bool) (input : List Char) : Reader JsonVariant :=
  match skipSpaces input with
  | [] => .error (if found then .IncompleteInput else .EmptyInput)
  | c :: rest =>
    if c = '[' then
      match nestingLimit with
      | 0 => .error .TooDeep
      | n + 1 => parseArray (fun i => parseVariant n true i) rest
    else if c = Char.ofNat 123 then
      match nestingLimit with
      | 0 => .error .TooDeep
      | n + 1 => parseObject (fun i => parseVariant n true i) rest
    else if c = Char.ofNat 34 then
      match parseQuotedString rest with
      | .error e => .error e
      | .ok (s, rest2) => .ok (.string s, rest2)
    else if c = 't' then
      match skipKeyword "rue".toList rest with
      | .error e => .error e
      | .ok rest2 => .ok (.boolean true, rest2)
    else if c = 'f' then
      match skipKeyword "alse".toList rest with
      | .error e => .error e
      | .ok rest2 => .ok (.boolean false, rest2)
    else if c = 'n' then
      match skipKeyword "ull".toList rest with
      | .error e => .error e
      | .ok rest2 => .ok (.null, rest2)
    else parseNumericValue (c :: rest)

/-- The default of `ARDUINOJSON_DEFAULT_NESTING_LIMIT`. -/
def defaultNestingLimit : Nat := 10

/-- Modelled from the spec: ArduinoJson's `deserializeJson(doc, const String&)` (the library
is not in the repository). The input is read as one JSON value (RFC 8259) with optional
whitespace around it and with the library's default nesting limit; any other input is reported
as an error. The fixed capacity of `StaticJsonDocument<256>` is not modelled: `NoMemory` is
never reported. -/
def deserializeJson (input : String) : Except DeserializationError JsonVariant :=
  match parseVariant defaultNestingLimit false input.toList with
  | .error e => .error e
  | .ok (doc, rest) =>
    match skipSpaces rest with
    | [] => .ok doc
    | _ :: _ => .error .InvalidInput

end ArduinoJson

/-! ## The platform: pins, clock, HTTP client -/

namespace Platform

/-- The level of a digital pin. -/
inductive PinLevel where
  | LOW
  | HIGH
deriving DecidableEq, Repr

/-- The fields of `struct tm` that the firmware's time format reads. -/
structure Tm where
  tm_sec : Int
  tm_min : Int
  tm_hour : Int
  tm_mday : Int
  tm_mon : Int
  tm_year : Int
deriving DecidableEq, Repr

/-- The ranges of the fields of a broken-down time as `localtime_r` produces it. -/
def Tm.inRange (t : Tm) : Prop :=
  0 ≤ t.tm_sec ∧ t.tm_sec ≤ 60 ∧ 0 ≤ t.tm_min ∧ t.tm_min ≤ 59 ∧ 0 ≤ t.tm_hour ∧ t.tm_hour ≤ 23 ∧
    1 ≤ t.tm_mday ∧ t.tm_mday ≤ 31 ∧ 0 ≤ t.tm_mon ∧ t.tm_mon ≤ 11

/-- Modelled from the spec: `getLocalTime(&timeinfo)` of the Arduino core for the ESP32 (not in
the repository). The core polls `localtime_r` until the clock shows a year later than 2016,
which is how it tells a synchronized clock, or until its timeout expires; `now` is the
broken-down time the polling ends on. The time is delivered when the clock is synchronized, and
the call fails otherwise. -/
def getLocalTime (now : Tm) : Option Tm :=
  if now.tm_year > 2016 - 1900 then some now else none

/-- A decimal number as `printf` writes it with a precision: a minus sign for a negative value,
then the digits, padded with zeros to at least `precision` digits. -/
def printDecimal (precision : Nat) (value : Int) : List Char :=
  let digits := ArduinoJson.writeInteger value.natAbs
  (if value < 0 then ['-'] else []) ++ List.replicate (precision - digits.length) '0' ++ digits

/-- The text one conversion specification of `strftime` stands for; `none` for a
specification the firmware does not use. -/
def strftimeConversion (spec : Char) (t : Tm) : Option (List Char) :=
  if spec = 'Y' then some (printDecimal 1 (t.tm_year + 1900))
  else if spec = 'm' then some (printDecimal 2 (t.tm_mon + 1))
  else if spec = 'd' then some (printDecimal 2 t.tm_mday)
  else if spec = 'H' then some (printDecimal 2 t.tm_hour)
  else if spec = 'M' then some (printDecimal 2 t.tm_min)
  else if spec = 'S' then some (printDecimal 2 t.tm_sec)
  else if spec = '%' then some ['%']
  else none

/-- The text a `strftime` format stands for: conversion specifications are replaced, every
other character is copied. -/
def strftimeText : List Char → Tm → Option (List Char)
  | [], _ => some []
  | [c], _ => if c = '%' then none else some [c]
  | c :: d :: rest, t =>
    if c = '%' then
      match strftimeConversion d t, strftimeText rest t with
      | some text, some more => some (text ++ more)
      | _, _ => none
    else
      match strftimeText (d :: rest) t with
      | some more => some (c :: more)
      | none => none

/-- Modelled from the spec: `strftime(buf, maxsize, format, &timeinfo)` of the C library (not
in the repository), for the conversions `%Y %m %d %H %M %S`: the year in decimal, the other
fields as two digits. The text is stored when it fits the buffer together with its terminator;
otherwise the call fails and leaves the buffer indeterminate (`none`). -/
def strftime (maxsize : Nat) (format : String) (t : Tm) : Option String :=
  match strftimeText format.toList t with
  | some text => if (String.mk text).utf8ByteSize + 1 ≤ maxsize then some (String.mk text) else none
  | none => none

/-- What the HTTP client reports for a request: `responseStatusCode()`, which is the HTTP
status or a negative error code of the client when the transport failed, and
`responseBody()`. -/
structure HttpResponse where
  status : Int
  body : String
deriving DecidableEq, Repr

/-- The calls the firmware makes to its peripherals and libraries, with what they returned. -/
inductive Event where
  | requestTemperatures
  | getTempCByIndex (index : Nat) (value : FloatValue)
  | digitalRead (pin : Nat) (level : PinLevel)
  | getLocalTime (now : Tm)
  | beginRequest
  | post (path : String)
  | sendHeader (name : String) (value : String)
  | beginBody
  | print (data : String)
  | endRequest
  | get (path : String)
  | responseStatusCode (status : Int)
  | responseBody (body : String)
  | digitalWrite (pin : Nat) (level : PinLevel)
  | delay (ms : Nat)
deriving DecidableEq, Repr

/-- The board as the firmware commands it: the level last written to every output pin, and
the trace of all calls made so far, oldest first. -/
structure Board where
  pins : Nat → PinLevel
  trace : List Event

/-- Append a call to the trace. -/
def Board.record (board : Board) (e : Event) : Board :=
  { board with trace := board.trace ++ [e] }

/-- The call `digitalWrite(pin, level)`: the pin takes the level, the call is traced. -/
def digitalWrite (pin : Nat) (level : PinLevel) (board : Board) : Board :=
  { pins := fun p => if p = pin then level else board.pins p,
    trace := board.trace ++ [.digitalWrite pin level] }

/-- The levels written to `pin` by the calls of a trace, oldest first. -/
def writesTo (pin : Nat) : List Event → List PinLevel
  | [] => []
  | .digitalWrite p level :: rest =>
    if p = pin then level :: writesTo pin rest else writesTo pin rest
  | _ :: rest => writesTo pin rest

/-- The calls a step added to the trace: what `after` holds beyond `before`. -/
def newEvents (before after : Board) : List Event :=
  after.trace.drop before.trace.length

end Platform

/-! ## The firmware: `embedded/src/main.cpp` -/

open ArduinoJson Platform

/-- `#define FAN_PIN 23`. -/
def FAN_PIN : Nat := 23
/-- `#define LIGHT_PIN 22`. -/
def LIGHT_PIN : Nat := 22
/-- `#define PIR_PIN 15`. -/
def PIR_PIN : Nat := 15
/-- `#define TEMP_PIN 4`. -/
def TEMP_PIN : Nat := 4

/-- What the outside world answers during one cycle. -/
structure CycleInputs where
  /-- The temperature the sensor returns from `getTempCByIndex(0)`. -/
  tempC : FloatValue
  /-- The level read on the motion pin. -/
  pirLevel : PinLevel
  /-- The broken-down time the clock shows when `getLocalTime` ends. -/
  now : Tm
  /-- The indeterminate content of `buf` when `strftime` fails. -/
  buf : String
  /-- The HTTP client's report for `POST /api/data`. -/
  postResponse : HttpResponse
  /-- The HTTP client's report for `GET /api/decision`. -/
  getResponse : HttpResponse

/-- `String getCurrentTimeString()`: the sentinel when `getLocalTime` fails, the time in the
format `%Y-%m-%dT%H:%M:%S` otherwise (the content of the 25 byte buffer `buf`). -/
def getCurrentTimeString (now : Tm) (buf : String) (board : Board) : String × Board :=
  let board := board.record (.getLocalTime now)
  match getLocalTime now with
  | none => ("1970-01-01T00:00:00", board)
  | some timeinfo =>
    match strftime 25 "%Y-%m-%dT%H:%M:%S" timeinfo with
    | some text => (text, board)
    | none => (buf, board)

/-- `float readTemperature()`. -/
def readTemperature (tempC : FloatValue) (board : Board) : FloatValue × Board :=
  let board := board.record .requestTemperatures
  let board := board.record (.getTempCByIndex 0 tempC)
  (tempC, board)

/-- `bool readMotion()`: `digitalRead(PIR_PIN) == HIGH`. -/
def readMotion (pirLevel : PinLevel) (board : Board) : Bool × Board :=
  let board := board.record (.digitalRead PIR_PIN pirLevel)
  (decide (pirLevel = .HIGH), board)

/-- The JSON text built in `sendSensorData`: the three assignments to the document and
`serializeJson(doc, json)`. -/
def telemetryJson (temperature : FloatValue) (motion : Bool) (datetime : String) : String :=
  let doc := JsonVariant.null
  let doc := doc.setMember "temperature" (.float temperature)
  let doc := doc.setMember "presence" (.boolean motion)
  let doc := doc.setMember "datetime" (.string datetime)
  serializeJson doc

/-- `void sendSensorData(float temperature, bool motion, String datetime)`: the document is
built and serialized, the request is sent, and the response is read (to be printed). -/
def sendSensorData (temperature : FloatValue) (motion : Bool) (datetime : String)
    (response : HttpResponse) (board : Board) : Board :=
  let json := telemetryJson temperature motion datetime
  let board := board.record .beginRequest
  let board := board.record (.post "/api/data")
  let board := board.record (.sendHeader "Content-Type" "application/json")
  let board := board.record (.sendHeader "Content-Length" (toString json.utf8ByteSize))
  let board := board.record .beginBody
  let board := board.record (.print json)
  let board := board.record .endRequest
  let board := board.record (.responseStatusCode response.status)
  let board := board.record (.responseBody response.body)
  board

/-- `void getAndApplyDecision()`: the decision is requested; nothing more happens unless the
status is 200 and the body deserializes; then both pins are written, each `HIGH` when the
document's member converts to `true` and `LOW` otherwise. -/
def getAndApplyDecision (response : HttpResponse) (board : Board) : Board :=
  let board := board.record (.get "/api/decision")
  let status := response.status
  let board := board.record (.responseStatusCode status)
  let body := response.body
  let board := board.record (.responseBody body)
  if status ≠ 200 then board
  else
    match deserializeJson body with
    | .error _ => board
    | .ok doc =>
      let board := digitalWrite FAN_PIN (if memberAsBool doc "turn_fan_on" then .HIGH else .LOW) board
      let board :=
        digitalWrite LIGHT_PIN (if memberAsBool doc "turn_light_on" then .HIGH else .LOW) board
      board

/-- `void loop()`: one cycle. -/
def loop (env : CycleInputs) (board : Board) : Board :=
  let (tempC, board) := readTemperature env.tempC board
  let (motion, board) := readMotion env.pirLevel board
  let (now, board) := getCurrentTimeString env.now env.buf board
  let board := sendSensorData tempC motion now env.postResponse board
  let board := board.record (.delay 500)
  let board := getAndApplyDecision env.getResponse board
  board.record (.delay 10000)

/-! ## Observations on traces and texts -/

/-- The bodies handed to `client.print` by the calls of a trace, oldest first. -/
def printedBodies : List Event → List String
  | [] => []
  | .print data :: rest => data :: printedBodies rest
  | _ :: rest => printedBodies rest

/-- The paths of the `client.post` calls of a trace, oldest first. -/
def postedPaths : List Event → List String
  | [] => []
  | .post path :: rest => path :: postedPaths rest
  | _ :: rest => postedPaths rest

/-- The paths of the `client.get` calls of a trace, oldest first. -/
def requestedPaths : List Event → List String
  | [] => []
  | .get path :: rest => path :: requestedPaths rest
  | _ :: rest => requestedPaths rest

/-- Whether a call reads a sensor or the clock: `getTempCByIndex`, `digitalRead` or
`getLocalTime`. -/
def Event.isRead : Event → Bool
  | .getTempCByIndex _ _ => true
  | .digitalRead _ _ => true
  | .getLocalTime _ => true
  | _ => false

/-- Whether a text has the form `YYYY-MM-DDTHH:MM:SS`: nineteen characters, digits in all
places but the separators `-`, `-`, `T`, `:`, `:`. -/
def isTimestampShape : List Char → Bool
  | [y1, y2, y3, y4, s1, m1, m2, s2, d1, d2, t, h1, h2, c1, n1, n2, c2, x1, x2] =>
    isDigit y1 && isDigit y2 && isDigit y3 && isDigit y4 && s1 = '-' &&
      isDigit m1 && isDigit m2 && s2 = '-' && isDigit d1 && isDigit d2 && t = 'T' &&
      isDigit h1 && isDigit h2 && c1 = ':' && isDigit n1 && isDigit n2 && c2 = ':' &&
      isDigit x1 && isDigit x2
  | _ => false

/-! ## Traces -/

theorem newEvents_append (before : Board) (pins : Nat → PinLevel) (events : List Event) :
    newEvents before { pins := pins, trace := before.trace ++ events } = events := by
  simp [newEvents]

theorem writesTo_nil (pin : Nat) : writesTo pin [] = [] := rfl

/-- The calls every run of `getAndApplyDecision` starts with. -/
theorem getAndApplyDecision_request (response : HttpResponse) (board : Board) :
    ((board.record (.get "/api/decision")).record (.responseStatusCode response.status)).record
        (.responseBody response.body) =
      { pins := board.pins,
        trace := board.trace ++ [.get "/api/decision", .responseStatusCode response.status,
          .responseBody response.body] } := by
  simp [Board.record]

/-- The run of `getAndApplyDecision` that returns before the pins are written. -/
theorem getAndApplyDecision_no_decision (response : HttpResponse) (board : Board)
    (h : response.status ≠ 200 ∨ ∃ e, deserializeJson response.body = .error e) :
    getAndApplyDecision response board =
      { pins := board.pins,
        trace := board.trace ++ [.get "/api/decision", .responseStatusCode response.status,
          .responseBody response.body] } := by
  unfold getAndApplyDecision
  simp only [getAndApplyDecision_request]
  by_cases hs : response.status = 200
  · rcases h with h | ⟨e, he⟩
    · exact absurd hs h
    · simp [hs, he]
  · simp [hs]

/-- The run of `getAndApplyDecision` that applies a decision: both pins are written. -/
theorem getAndApplyDecision_decision (response : HttpResponse) (board : Board)
    (doc : JsonVariant) (hs : response.status = 200)
    (hd : deserializeJson response.body = .ok doc) :
    getAndApplyDecision response board =
      { pins := fun p =>
          if p = LIGHT_PIN then (if memberAsBool doc "turn_light_on" then .HIGH else .LOW)
          else if p = FAN_PIN then (if memberAsBool doc "turn_fan_on" then .HIGH else .LOW)
          else board.pins p,
        trace := board.trace ++ [.get "/api/decision", .responseStatusCode response.status,
          .responseBody response.body,
          .digitalWrite FAN_PIN (if memberAsBool doc "turn_fan_on" then .HIGH else .LOW),
          .digitalWrite LIGHT_PIN (if memberAsBool doc "turn_light_on" then .HIGH else .LOW)] } := by
  unfold getAndApplyDecision
  simp only [getAndApplyDecision_request]
  simp [hs, hd, digitalWrite]

/-! ## C1 -/

/-- Claim C1: for every status code other than 200 returned for `GET /api/decision` and every
response body, `getAndApplyDecision` only issues the request and reads the response: it
writes neither the fan pin nor the light pin, and the commanded level of every pin after the
call is the level before it. -/
theorem getAndApplyDecision_status_not_200 (response : HttpResponse) (board : Board)
    (h : response.status ≠ 200) :
    newEvents board (getAndApplyDecision response board) =
        [.get "/api/decision", .responseStatusCode response.status,
          .responseBody response.body] ∧
      writesTo FAN_PIN (newEvents board (getAndApplyDecision response board)) = [] ∧
      writesTo LIGHT_PIN (newEvents board (getAndApplyDecision response board)) = [] ∧
      (getAndApplyDecision response board).pins = board.pins := by
  rw [getAndApplyDecision_no_decision response board (Or.inl h), newEvents_append]
  simp [writesTo]

/-- Witness of C1: the status 404 with a body that would otherwise switch both pins on. -/
theorem getAndApplyDecision_status_not_200_witness :
    newEvents ⟨fun _ => .LOW, []⟩
        (getAndApplyDecision ⟨404, "\x7b\"turn_fan_on\":true,\"turn_light_on\":true\x7d"⟩
          ⟨fun _ => .LOW, []⟩) =
        [.get "/api/decision", .responseStatusCode 404,
          .responseBody "\x7b\"turn_fan_on\":true,\"turn_light_on\":true\x7d"] ∧
      writesTo FAN_PIN (newEvents ⟨fun _ => .LOW, []⟩
        (getAndApplyDecision ⟨404, "\x7b\"turn_fan_on\":true,\"turn_light_on\":true\x7d"⟩
          ⟨fun _ => .LOW, []⟩)) = [] ∧
      writesTo LIGHT_PIN (newEvents ⟨fun _ => .LOW, []⟩
        (getAndApplyDecision ⟨404, "\x7b\"turn_fan_on\":true,\"turn_light_on\":true\x7d"⟩
          ⟨fun _ => .LOW, []⟩)) = [] ∧
      (getAndApplyDecision ⟨404, "\x7b\"turn_fan_on\":true,\"turn_light_on\":true\x7d"⟩
          ⟨fun _ => .LOW, []⟩).pins = fun _ => .LOW :=
  getAndApplyDecision_status_not_200
    ⟨404, "\x7b\"turn_fan_on\":true,\"turn_light_on\":true\x7d"⟩ ⟨fun _ => .LOW, []⟩ (by decide)

/-! ## C2 -/

/-- Claim C2: when `GET /api/decision` answers with status 200 and a body that deserializes
to an object holding exactly one of the keys `turn_fan_on` / `turn_light_on`, with a boolean
value, `getAndApplyDecision` writes both pins, each once: the pin of the present key gets
`HIGH` if and only if the value is `true`, and the pin of the absent key gets `LOW`. In
particular the body `{"turn_fan_on":true}` yields fan `HIGH` and light `LOW`. -/
theorem getAndApplyDecision_one_key_present (response : HttpResponse) (board : Board)
    (members : List (String × JsonVariant)) (value : Bool)
    (presentKey absentKey : String) (presentPin absentPin : Nat)
    (hstatus : response.status = 200)
    (hbody : deserializeJson response.body = .ok (.object members))
    (hkeys : (presentKey = "turn_fan_on" ∧ presentPin = FAN_PIN ∧
          absentKey = "turn_light_on" ∧ absentPin = LIGHT_PIN) ∨
        (presentKey = "turn_light_on" ∧ presentPin = LIGHT_PIN ∧
          absentKey = "turn_fan_on" ∧ absentPin = FAN_PIN))
    (hpresent : lookupMember presentKey members = some (.boolean value))
    (habsent : lookupMember absentKey members = none) :
    (writesTo presentPin (newEvents board (getAndApplyDecision response board)) =
        [if value then .HIGH else .LOW] ∧
      writesTo absentPin (newEvents board (getAndApplyDecision response board)) = [.LOW] ∧
      ((getAndApplyDecision response board).pins presentPin = .HIGH ↔ value = true) ∧
      (getAndApplyDecision response board).pins absentPin = .LOW) ∧
    ((getAndApplyDecision ⟨200, "\x7b\"turn_fan_on\":true\x7d"⟩ board).pins FAN_PIN = .HIGH ∧
      (getAndApplyDecision ⟨200, "\x7b\"turn_fan_on\":true\x7d"⟩ board).pins LIGHT_PIN = .LOW ∧
      newEvents board (getAndApplyDecision ⟨200, "\x7b\"turn_fan_on\":true\x7d"⟩ board) =
        [.get "/api/decision", .responseStatusCode 200,
          .responseBody "\x7b\"turn_fan_on\":true\x7d",
          .digitalWrite FAN_PIN .HIGH, .digitalWrite LIGHT_PIN .LOW]) := by
  constructor
  · rw [getAndApplyDecision_decision response board _ hstatus hbody, newEvents_append]
    rcases hkeys with ⟨rfl, rfl, rfl, rfl⟩ | ⟨rfl, rfl, rfl, rfl⟩
    · cases value <;>
        simp [writesTo, memberAsBool, JsonVariant.getMember, hpresent, habsent,
          JsonVariant.asBool, FAN_PIN, LIGHT_PIN]
    · cases value <;>
        simp [writesTo, memberAsBool, JsonVariant.getMember, hpresent, habsent,
          JsonVariant.asBool, FAN_PIN, LIGHT_PIN]
  · have hparse : deserializeJson (HttpResponse.mk 200 "\x7b\"turn_fan_on\":true\x7d").body =
        .ok (.object [("turn_fan_on", .boolean true)]) := by rfl
    rw [getAndApplyDecision_decision _ board _ rfl hparse, newEvents_append]
    have hfan : memberAsBool (.object [("turn_fan_on", .boolean true)]) "turn_fan_on" = true := by
      decide
    have hlight :
        memberAsBool (.object [("turn_fan_on", .boolean true)]) "turn_light_on" = false := by
      decide
    simp [hfan, hlight, FAN_PIN, LIGHT_PIN]

/-- Witness of C2: the body `{"turn_light_on":false}` on a board whose pins are both `HIGH`. -/
theorem getAndApplyDecision_one_key_present_witness :
    (writesTo LIGHT_PIN (newEvents ⟨fun _ => .HIGH, []⟩
          (getAndApplyDecision ⟨200, "\x7b\"turn_light_on\":false\x7d"⟩ ⟨fun _ => .HIGH, []⟩)) =
        [if false then .HIGH else .LOW] ∧
      writesTo FAN_PIN (newEvents ⟨fun _ => .HIGH, []⟩
          (getAndApplyDecision ⟨200, "\x7b\"turn_light_on\":false\x7d"⟩ ⟨fun _ => .HIGH, []⟩)) =
        [.LOW] ∧
      ((getAndApplyDecision ⟨200, "\x7b\"turn_light_on\":false\x7d"⟩
          ⟨fun _ => .HIGH, []⟩).pins LIGHT_PIN = .HIGH ↔ false = true) ∧
      (getAndApplyDecision ⟨200, "\x7b\"turn_light_on\":false\x7d"⟩
          ⟨fun _ => .HIGH, []⟩).pins FAN_PIN = .LOW) ∧
    ((getAndApplyDecision ⟨200, "\x7b\"turn_fan_on\":true\x7d"⟩
          ⟨fun _ => .HIGH, []⟩).pins FAN_PIN = .HIGH ∧
      (getAndApplyDecision ⟨200, "\x7b\"turn_fan_on\":true\x7d"⟩
          ⟨fun _ => .HIGH, []⟩).pins LIGHT_PIN = .LOW ∧
      newEvents ⟨fun _ => .HIGH, []⟩
          (getAndApplyDecision ⟨200, "\x7b\"turn_fan_on\":true\x7d"⟩ ⟨fun _ => .HIGH, []⟩) =
        [.get "/api/decision", .responseStatusCode 200,
          .responseBody "\x7b\"turn_fan_on\":true\x7d",
          .digitalWrite FAN_PIN .HIGH, .digitalWrite LIGHT_PIN .LOW]) :=
  getAndApplyDecision_one_key_present ⟨200, "\x7b\"turn_light_on\":false\x7d"⟩
    ⟨fun _ => .HIGH, []⟩ [("turn_light_on", .boolean false)] false
    "turn_light_on" "turn_fan_on" LIGHT_PIN FAN_PIN rfl (by rfl)
    (Or.inr ⟨rfl, rfl, rfl, rfl⟩) (by rfl) (by rfl)

/-! ## C3 -/

/-- Counterexample to C3: the body `[]` is well-formed JSON that is not an object, the status
is 200, and the fan and the light are commanded `HIGH`. `getAndApplyDecision` does not return
"no decision": it writes both pins and both end `LOW`. -/
theorem getAndApplyDecision_array_body_writes_pins :
    deserializeJson "[]" = .ok (.array []) ∧
      newEvents ⟨fun _ => .HIGH, []⟩ (getAndApplyDecision ⟨200, "[]"⟩ ⟨fun _ => .HIGH, []⟩) =
        [.get "/api/decision", .responseStatusCode 200, .responseBody "[]",
          .digitalWrite FAN_PIN .LOW, .digitalWrite LIGHT_PIN .LOW] ∧
      writesTo FAN_PIN (newEvents ⟨fun _ => .HIGH, []⟩
        (getAndApplyDecision ⟨200, "[]"⟩ ⟨fun _ => .HIGH, []⟩)) ≠ [] ∧
      writesTo LIGHT_PIN (newEvents ⟨fun _ => .HIGH, []⟩
        (getAndApplyDecision ⟨200, "[]"⟩ ⟨fun _ => .HIGH, []⟩)) ≠ [] ∧
      (getAndApplyDecision ⟨200, "[]"⟩ ⟨fun _ => .HIGH, []⟩).pins FAN_PIN ≠
        (Board.mk (fun _ => .HIGH) []).pins FAN_PIN ∧
      (getAndApplyDecision ⟨200, "[]"⟩ ⟨fun _ => .HIGH, []⟩).pins LIGHT_PIN ≠
        (Board.mk (fun _ => .HIGH) []).pins LIGHT_PIN := by
  refine ⟨by rfl, by decide, by decide, by decide, by decide, by decide⟩

/-- Claim C3, amended: when `GET /api/decision` answers with status 200 and a body that
deserializes to a JSON value that is not an object (an array, a number, a string, `true`,
`false` or `null`), `getAndApplyDecision` applies the decision "both off": it writes `LOW` to
the fan pin and `LOW` to the light pin, and leaves every other pin as it was. -/
theorem getAndApplyDecision_non_object_body (response : HttpResponse) (board : Board)
    (doc : JsonVariant) (hstatus : response.status = 200)
    (hbody : deserializeJson response.body = .ok doc)
    (hdoc : ∀ members, doc ≠ .object members) :
    newEvents board (getAndApplyDecision response board) =
        [.get "/api/decision", .responseStatusCode response.status,
          .responseBody response.body,
          .digitalWrite FAN_PIN .LOW, .digitalWrite LIGHT_PIN .LOW] ∧
      (getAndApplyDecision response board).pins FAN_PIN = .LOW ∧
      (getAndApplyDecision response board).pins LIGHT_PIN = .LOW ∧
      ∀ pin, pin ≠ FAN_PIN → pin ≠ LIGHT_PIN →
        (getAndApplyDecision response board).pins pin = board.pins pin := by
  have hmember : ∀ key, memberAsBool doc key = false := by
    intro key
    cases doc with
    | object members => exact absurd rfl (hdoc members)
    | _ => rfl
  rw [getAndApplyDecision_decision response board doc hstatus hbody, newEvents_append]
  simp only [hmember]
  refine ⟨by simp, by simp [FAN_PIN, LIGHT_PIN], by simp, ?_⟩
  intro pin hfan hlight
  simp [hfan, hlight]

/-- Witness of C3, amended: the body `"on"`, a JSON string, with both pins `HIGH` before. -/
theorem getAndApplyDecision_non_object_body_witness :
    newEvents ⟨fun _ => .HIGH, []⟩
        (getAndApplyDecision ⟨200, "\"on\""⟩ ⟨fun _ => .HIGH, []⟩) =
        [.get "/api/decision", .responseStatusCode 200, .responseBody "\"on\"",
          .digitalWrite FAN_PIN .LOW, .digitalWrite LIGHT_PIN .LOW] ∧
      (getAndApplyDecision ⟨200, "\"on\""⟩ ⟨fun _ => .HIGH, []⟩).pins FAN_PIN = .LOW ∧
      (getAndApplyDecision ⟨200, "\"on\""⟩ ⟨fun _ => .HIGH, []⟩).pins LIGHT_PIN = .LOW ∧
      ∀ pin, pin ≠ FAN_PIN → pin ≠ LIGHT_PIN →
        (getAndApplyDecision ⟨200, "\"on\""⟩ ⟨fun _ => .HIGH, []⟩).pins pin = .HIGH :=
  getAndApplyDecision_non_object_body ⟨200, "\"on\""⟩ ⟨fun _ => .HIGH, []⟩ (.string "on")
    rfl (by rfl) (fun _ h => by cases h)

/-! ## C4 -/

theorem isDigit_digitChar (d : Nat) : isDigit (digitChar d) = true := by
  have h : ∀ r, r < 10 → isDigit (Char.ofNat (48 + r)) = true := by decide
  exact h (d % 10) (Nat.mod_lt d (by decide))

theorem takeDigits_append (digits rest : List Char) (hdigits : ∀ c ∈ digits, isDigit c = true)
    (hrest : ∀ c, rest.head? = some c → isDigit c = false) :
    takeDigits (digits ++ rest) = (digits, rest) := by
  induction digits with
  | nil =>
    cases rest with
    | nil => rfl
    | cons c rest => simp [takeDigits, hrest c rfl]
  | cons d digits ih =>
    have hd : isDigit d = true := hdigits d (List.mem_cons_self _ _)
    have ih := ih (fun c hc => hdigits c (List.mem_cons_of_mem _ hc))
    simp [takeDigits, hd, ih]

theorem takeDigits_append_cons (digits : List Char) (c : Char) (rest : List Char)
    (hdigits : ∀ d ∈ digits, isDigit d = true) (hc : isDigit c = false) :
    takeDigits (digits ++ c :: rest) = (digits, c :: rest) :=
  takeDigits_append digits (c :: rest) hdigits (by intro d hd; simp at hd; subst hd; exact hc)

/-- The text of the telemetry document: an object of three members in the order of the three
assignments. -/
theorem telemetryJson_eq (temperature : FloatValue) (motion : Bool) (datetime : String) :
    telemetryJson temperature motion datetime =
      "\x7b\"temperature\":" ++ String.mk (writeFloat temperature) ++ ",\"presence\":" ++
        (if motion then "true" else "false") ++ ",\"datetime\":" ++
        String.mk (writeString datetime) ++ "\x7d" := by
  have hdoc : ((JsonVariant.null.setMember "temperature" (.float temperature)).setMember
      "presence" (.boolean motion)).setMember "datetime" (.string datetime) =
      .object [("temperature", .float temperature), ("presence", .boolean motion),
        ("datetime", .string datetime)] := by rfl
  have hk1 : writeString "temperature" = "\"temperature\"".toList := by decide
  have hk2 : writeString "presence" = "\"presence\"".toList := by decide
  have hk3 : writeString "datetime" = "\"datetime\"".toList := by decide
  unfold telemetryJson serializeJson
  simp only []
  rw [hdoc]
  apply String.ext
  cases motion <;>
    simp [writeVariant, writeMembers, hk1, hk2, hk3, String.data_append]

/-- The calls of one run of `sendSensorData`. -/
theorem sendSensorData_eq (temperature : FloatValue) (motion : Bool) (datetime : String)
    (response : HttpResponse) (board : Board) :
    sendSensorData temperature motion datetime response board =
      { pins := board.pins,
        trace := board.trace ++ [.beginRequest, .post "/api/data",
          .sendHeader "Content-Type" "application/json",
          .sendHeader "Content-Length"
            (toString (telemetryJson temperature motion datetime).utf8ByteSize),
          .beginBody, .print (telemetryJson temperature motion datetime), .endRequest,
          .responseStatusCode response.status, .responseBody response.body] } := by
  simp [sendSensorData, Board.record]

/-! ## C5 -/

/-- Claim C10: when the temperature passed to `sendSensorData` is NaN, serialization still
produces a body, the JSON object `{"temperature":null,"presence":…,"datetime":"…"}` with the
three members `temperature`, `presence`, `datetime`, the temperature written as `null`; and
for every temperature, NaN or not, the same calls submit the body by `POST /api/data`. With
presence `true` and datetime `2024-01-01T12:00:00` the body reads back as the object with the
members `temperature` null, `presence` true and `datetime` "2024-01-01T12:00:00". -/
theorem sendSensorData_nan_temperature (motion : Bool) (datetime : String)
    (response : HttpResponse) (board : Board) :
    telemetryJson .nan motion datetime =
        "\x7b\"temperature\":null,\"presence\":" ++ (if motion then "true" else "false") ++
          ",\"datetime\":" ++
          String.mk (Char.ofNat 34 :: (datetime.toList.flatMap writeChar ++ [Char.ofNat 34])) ++
          "\x7d" ∧
      (∀ temperature : FloatValue,
        newEvents board (sendSensorData temperature motion datetime response board) =
          [.beginRequest, .post "/api/data", .sendHeader "Content-Type" "application/json",
            .sendHeader "Content-Length"
              (toString (telemetryJson temperature motion datetime).utf8ByteSize),
            .beginBody, .print (telemetryJson temperature motion datetime), .endRequest,
            .responseStatusCode response.status, .responseBody response.body]) ∧
      deserializeJson (telemetryJson .nan true "2024-01-01T12:00:00") =
        .ok (.object [("temperature", .null), ("presence", .boolean true),
          ("datetime", .string "2024-01-01T12:00:00")]) := by
  refine ⟨?_, ?_, by rfl⟩
  · rw [telemetryJson_eq]
    apply String.ext
    cases motion <;> simp [String.data_append, writeFloat, writeString]
  · intro temperature
    rw [sendSensorData_eq, newEvents_append]

/-! ## The cycle -/

/-- The only call `getCurrentTimeString` makes is `getLocalTime`. -/
theorem getCurrentTimeString_board (now : Tm) (buf : String) (board : Board) :
    (getCurrentTimeString now buf board).2 = board.record (.getLocalTime now) := by
  unfold getCurrentTimeString
  simp only []
  split
  · rfl
  · split <;> rfl

/-- The string `getCurrentTimeString` returns does not depend on the board. -/
theorem getCurrentTimeString_fst (now : Tm) (buf : String) (board board2 : Board) :
    (getCurrentTimeString now buf board).1 = (getCurrentTimeString now buf board2).1 := by
  unfold getCurrentTimeString
  simp only []
  split
  · rfl
  · split <;> rfl

/-- The calls of one cycle: the reading, the telemetry request, the pause, the decision
request, the pin writes of the decision if one is applied, and the final pause. -/
theorem newEvents_loop (env : CycleInputs) (board : Board) :
    ∃ writes : List Event,
      (writes = [] ∨
        ∃ fan light, writes = [.digitalWrite FAN_PIN fan, .digitalWrite LIGHT_PIN light]) ∧
      newEvents board (loop env board) =
        [.requestTemperatures, .getTempCByIndex 0 env.tempC,
          .digitalRead PIR_PIN env.pirLevel, .getLocalTime env.now,
          .beginRequest, .post "/api/data", .sendHeader "Content-Type" "application/json",
          .sendHeader "Content-Length"
            (toString (telemetryJson env.tempC (decide (env.pirLevel = .HIGH))
              (getCurrentTimeString env.now env.buf board).1).utf8ByteSize),
          .beginBody,
          .print (telemetryJson env.tempC (decide (env.pirLevel = .HIGH))
            (getCurrentTimeString env.now env.buf board).1),
          .endRequest, .responseStatusCode env.postResponse.status,
          .responseBody env.postResponse.body, .delay 500,
          .get "/api/decision", .responseStatusCode env.getResponse.status,
          .responseBody env.getResponse.body] ++ writes ++ [.delay 10000] := by
  have htime := getCurrentTimeString_fst env.now env.buf
    ((board.record .requestTemperatures).record (.getTempCByIndex 0 env.tempC) |>.record
      (.digitalRead PIR_PIN env.pirLevel)) board
  by_cases hdecision : env.getResponse.status ≠ 200 ∨
      ∃ e, deserializeJson env.getResponse.body = .error e
  · refine ⟨[], Or.inl rfl, ?_⟩
    simp only [loop, readTemperature, readMotion, getCurrentTimeString_board, htime,
      sendSensorData_eq, getAndApplyDecision_no_decision _ _ hdecision]
    simp [newEvents, Board.record]
  · have hstatus : env.getResponse.status = 200 := by
      by_contra h
      exact hdecision (Or.inl h)
    obtain ⟨doc, hdoc⟩ : ∃ doc, deserializeJson env.getResponse.body = .ok doc := by
      cases h : deserializeJson env.getResponse.body with
      | error e => exact absurd (Or.inr ⟨e, h⟩) hdecision
      | ok doc => exact ⟨doc, rfl⟩
    refine ⟨[.digitalWrite FAN_PIN (if memberAsBool doc "turn_fan_on" then .HIGH else .LOW),
      .digitalWrite LIGHT_PIN (if memberAsBool doc "turn_light_on" then .HIGH else .LOW)],
      Or.inr ⟨_, _, rfl⟩, ?_⟩
    simp only [loop, readTemperature, readMotion, getCurrentTimeString_board, htime,
      sendSensorData_eq, getAndApplyDecision_decision _ _ doc hstatus hdoc]
    simp [newEvents, Board.record]

/-! ## C7 -/

/-- Claim C7: whenever `getLocalTime` fails, `getCurrentTimeString` returns exactly
`1970-01-01T00:00:00`, and the one telemetry body submitted in that cycle carries that string
as its `datetime` member. -/
theorem getCurrentTimeString_unsynchronized (env : CycleInputs) (board : Board)
    (h : getLocalTime env.now = none) :
    (getCurrentTimeString env.now env.buf board).1 = "1970-01-01T00:00:00" ∧
      printedBodies (newEvents board (loop env board)) =
        ["\x7b\"temperature\":" ++ String.mk (writeFloat env.tempC) ++ ",\"presence\":" ++
          (if env.pirLevel = .HIGH then "true" else "false") ++
          ",\"datetime\":\"1970-01-01T00:00:00\"\x7d"] := by
  have hstring : (getCurrentTimeString env.now env.buf board).1 = "1970-01-01T00:00:00" := by
    simp [getCurrentTimeString, h]
  refine ⟨hstring, ?_⟩
  obtain ⟨writes, hwrites, hloop⟩ := newEvents_loop env board
  rw [hloop, hstring, telemetryJson_eq]
  have hsentinel : writeString "1970-01-01T00:00:00" = "\"1970-01-01T00:00:00\"".toList := by
    decide
  have hbody : "\x7b\"temperature\":" ++ String.mk (writeFloat env.tempC) ++ ",\"presence\":" ++
      (if decide (env.pirLevel = .HIGH) = true then "true" else "false") ++ ",\"datetime\":" ++
      String.mk (writeString "1970-01-01T00:00:00") ++ "\x7d" =
      "\x7b\"temperature\":" ++ String.mk (writeFloat env.tempC) ++ ",\"presence\":" ++
      (if env.pirLevel = .HIGH then "true" else "false") ++
      ",\"datetime\":\"1970-01-01T00:00:00\"\x7d" := by
    rw [hsentinel]
    apply String.ext
    by_cases hpir : env.pirLevel = .HIGH <;> simp [String.data_append, hpir]
  rw [hbody]
  rcases hwrites with rfl | ⟨fan, light, rfl⟩ <;> simp [printedBodies]

/-- Witness of C7: a clock that still shows 1 January 1970, a temperature of 21.5 and
motion. -/
theorem getCurrentTimeString_unsynchronized_witness :
    (getCurrentTimeString ⟨7, 0, 0, 1, 0, 70⟩ "" ⟨fun _ => .LOW, []⟩).1 =
        "1970-01-01T00:00:00" ∧
      printedBodies (newEvents ⟨fun _ => .LOW, []⟩
        (loop ⟨.finite false 215 (-1), .HIGH, ⟨7, 0, 0, 1, 0, 70⟩, "", ⟨200, "ok"⟩,
          ⟨200, "\x7b\x7d"⟩⟩ ⟨fun _ => .LOW, []⟩)) =
        ["\x7b\"temperature\":" ++ String.mk (writeFloat (.finite false 215 (-1))) ++
          ",\"presence\":" ++ (if PinLevel.HIGH = .HIGH then "true" else "false") ++
          ",\"datetime\":\"1970-01-01T00:00:00\"\x7d"] :=
  getCurrentTimeString_unsynchronized
    ⟨.finite false 215 (-1), .HIGH, ⟨7, 0, 0, 1, 0, 70⟩, "", ⟨200, "ok"⟩, ⟨200, "\x7b\x7d"⟩⟩
    ⟨fun _ => .LOW, []⟩ (by decide)

/-! ## C8 -/

/-- Claim C8: every execution of `loop` makes, in this order, exactly one reading (one
temperature read, one motion read, one clock read), exactly one telemetry `POST /api/data`
and then exactly one `GET /api/decision`, whatever the HTTP client reports for the POST; and
it applies at most one decision: the fan pin and the light pin are each written at most
once. -/
theorem loop_one_cycle (env : CycleInputs) (board : Board) :
    (∃ writes : List Event,
      (writes = [] ∨
        ∃ fan light, writes = [.digitalWrite FAN_PIN fan, .digitalWrite LIGHT_PIN light]) ∧
      newEvents board (loop env board) =
        [.requestTemperatures, .getTempCByIndex 0 env.tempC,
          .digitalRead PIR_PIN env.pirLevel, .getLocalTime env.now,
          .beginRequest, .post "/api/data", .sendHeader "Content-Type" "application/json",
          .sendHeader "Content-Length"
            (toString (telemetryJson env.tempC (decide (env.pirLevel = .HIGH))
              (getCurrentTimeString env.now env.buf board).1).utf8ByteSize),
          .beginBody,
          .print (telemetryJson env.tempC (decide (env.pirLevel = .HIGH))
            (getCurrentTimeString env.now env.buf board).1),
          .endRequest, .responseStatusCode env.postResponse.status,
          .responseBody env.postResponse.body, .delay 500,
          .get "/api/decision", .responseStatusCode env.getResponse.status,
          .responseBody env.getResponse.body] ++ writes ++ [.delay 10000]) ∧
    (newEvents board (loop env board)).filter Event.isRead =
      [.getTempCByIndex 0 env.tempC, .digitalRead PIR_PIN env.pirLevel,
        .getLocalTime env.now] ∧
    postedPaths (newEvents board (loop env board)) = ["/api/data"] ∧
    requestedPaths (newEvents board (loop env board)) = ["/api/decision"] ∧
    (writesTo FAN_PIN (newEvents board (loop env board))).length ≤ 1 ∧
    (writesTo LIGHT_PIN (newEvents board (loop env board))).length ≤ 1 := by
  refine ⟨newEvents_loop env board, ?_⟩
  obtain ⟨writes, hwrites, hloop⟩ := newEvents_loop env board
  rw [hloop]
  rcases hwrites with rfl | ⟨fan, light, rfl⟩ <;>
    simp [Event.isRead, postedPaths, requestedPaths, writesTo, FAN_PIN, LIGHT_PIN]

/-! ## The time format -/

theorem writeDigits_step (steps value : Nat) (acc : List Char) (h : value < steps) :
    writeDigits steps value acc =
      if value / 10 = 0 then digitChar value :: acc
      else writeDigits (steps - 1) (value / 10) (digitChar value :: acc) := by
  cases steps with
  | zero => omega
  | succ steps => rfl

theorem writeInteger_one_digit (n : Nat) (h : n < 10) : writeInteger n = [digitChar n] := by
  unfold writeInteger
  rw [writeDigits_step _ _ _ (by omega), if_pos (by omega)]

theorem writeInteger_two_digits (n : Nat) (h10 : 10 ≤ n) (h : n < 100) :
    writeInteger n = [digitChar (n / 10), digitChar n] := by
  unfold writeInteger
  rw [writeDigits_step _ _ _ (by omega), if_neg (by omega),
    writeDigits_step _ _ _ (by omega), if_pos (by omega)]

theorem writeInteger_four_digits (n : Nat) (h1000 : 1000 ≤ n) (h : n < 10000) :
    writeInteger n =
      [digitChar (n / 1000), digitChar (n / 100), digitChar (n / 10), digitChar n] := by
  unfold writeInteger
  rw [writeDigits_step _ _ _ (by omega), if_neg (by omega),
    writeDigits_step _ _ _ (by omega), if_neg (by omega),
    writeDigits_step _ _ _ (by omega), if_neg (by omega),
    writeDigits_step _ _ _ (by omega), if_pos (by omega)]
  have h100 : n / 10 / 10 = n / 100 := by omega
  have h1000 : n / 10 / 10 / 10 = n / 1000 := by omega
  rw [h1000, h100]

/-- A field between 0 and 99 is written with exactly two digits. -/
theorem printDecimal_two (v : Int) (h0 : 0 ≤ v) (h99 : v ≤ 99) :
    printDecimal 2 v = [digitChar (v.toNat / 10), digitChar v.toNat] := by
  obtain ⟨n, rfl⟩ := Int.eq_ofNat_of_zero_le h0
  have hn : n ≤ 99 := by omega
  have hneg : ¬ ((n : Int) < 0) := by omega
  by_cases h10 : n < 10
  · have hdiv : n / 10 = 0 := by omega
    simp [printDecimal, hneg, writeInteger_one_digit n h10, hdiv, List.replicate]
    rfl
  · simp [printDecimal, hneg, writeInteger_two_digits n (by omega) (by omega)]

/-- A year between 1000 and 9999 is written with exactly four digits. -/
theorem printDecimal_year (v : Int) (h1000 : 1000 ≤ v) (h9999 : v ≤ 9999) :
    printDecimal 1 v = [digitChar (v.toNat / 1000), digitChar (v.toNat / 100),
      digitChar (v.toNat / 10), digitChar v.toNat] := by
  obtain ⟨n, rfl⟩ := Int.eq_ofNat_of_zero_le (by omega : 0 ≤ v)
  have hneg : ¬ ((n : Int) < 0) := by omega
  simp [printDecimal, hneg, writeInteger_four_digits n (by omega) (by omega)]

/-- The text the firmware's time format stands for. -/
theorem strftimeText_format (t : Tm) :
    strftimeText "%Y-%m-%dT%H:%M:%S".toList t =
      some (printDecimal 1 (t.tm_year + 1900) ++ ('-' :: (printDecimal 2 (t.tm_mon + 1) ++
        ('-' :: (printDecimal 2 t.tm_mday ++ ('T' :: (printDecimal 2 t.tm_hour ++
          (':' :: (printDecimal 2 t.tm_min ++ (':' :: (printDecimal 2 t.tm_sec ++ [])))))))))))
      := by
  rfl

theorem utf8Size_digitChar (d : Nat) : (digitChar d).utf8Size = 1 := by
  have h : ∀ r, r < 10 → (Char.ofNat (48 + r)).utf8Size = 1 := by decide
  exact h (d % 10) (Nat.mod_lt d (by decide))

/-- The time string of a synchronized clock whose year has four digits. -/
theorem getCurrentTimeString_synchronized (now : Tm) (buf : String) (board : Board)
    (hrange : now.inRange) (h1000 : 1000 ≤ now.tm_year + 1900)
    (h9999 : now.tm_year + 1900 ≤ 9999) (hclock : getLocalTime now = some now) :
    (getCurrentTimeString now buf board).1 =
      String.mk [digitChar ((now.tm_year + 1900).toNat / 1000),
        digitChar ((now.tm_year + 1900).toNat / 100),
        digitChar ((now.tm_year + 1900).toNat / 10), digitChar (now.tm_year + 1900).toNat, '-',
        digitChar ((now.tm_mon + 1).toNat / 10), digitChar (now.tm_mon + 1).toNat, '-',
        digitChar (now.tm_mday.toNat / 10), digitChar now.tm_mday.toNat, 'T',
        digitChar (now.tm_hour.toNat / 10), digitChar now.tm_hour.toNat, ':',
        digitChar (now.tm_min.toNat / 10), digitChar now.tm_min.toNat, ':',
        digitChar (now.tm_sec.toNat / 10), digitChar now.tm_sec.toNat] := by
  obtain ⟨hs0, hs1, hm0, hm1, hh0, hh1, hd0, hd1, ho0, ho1⟩ := hrange
  have htext := strftimeText_format now
  rw [printDecimal_year _ h1000 h9999, printDecimal_two _ (by omega) (by omega : now.tm_mon + 1 ≤ 99),
    printDecimal_two _ (by omega) (by omega : now.tm_mday ≤ 99),
    printDecimal_two _ hh0 (by omega), printDecimal_two _ hm0 (by omega),
    printDecimal_two _ hs0 (by omega)] at htext
  unfold getCurrentTimeString
  simp only [hclock, strftime, htext]
  have hcolon : ':'.utf8Size = 1 := by decide
  have hdash : '-'.utf8Size = 1 := by decide
  have hT : 'T'.utf8Size = 1 := by decide
  simp [String.utf8ByteSize, String.utf8ByteSize.go, utf8Size_digitChar, hcolon, hdash, hT]

/-! ## C9 -/

/-- Claim C9: for every broken-down local time that `getLocalTime` delivers, with its fields
in the ranges of `localtime_r` and a year of at most 9999, `getCurrentTimeString` returns a
string of exactly 19 characters of the form `YYYY-MM-DDTHH:MM:SS`: the four digits of the
year, and month, day, hour, minute and second as two digits each, padded with a zero,
separated by `-`, `-`, `T`, `:`, `:`. With its terminator the string takes 20 of the 25 bytes
of the buffer. -/
theorem getCurrentTimeString_timestamp (now timeinfo : Tm) (buf : String) (board : Board)
    (hrange : now.inRange) (hclock : getLocalTime now = some timeinfo)
    (hyear : timeinfo.tm_year + 1900 ≤ 9999) :
    (getCurrentTimeString now buf board).1 =
        String.mk [digitChar ((timeinfo.tm_year + 1900).toNat / 1000),
          digitChar ((timeinfo.tm_year + 1900).toNat / 100),
          digitChar ((timeinfo.tm_year + 1900).toNat / 10),
          digitChar (timeinfo.tm_year + 1900).toNat, '-',
          digitChar ((timeinfo.tm_mon + 1).toNat / 10), digitChar (timeinfo.tm_mon + 1).toNat, '-',
          digitChar (timeinfo.tm_mday.toNat / 10), digitChar timeinfo.tm_mday.toNat, 'T',
          digitChar (timeinfo.tm_hour.toNat / 10), digitChar timeinfo.tm_hour.toNat, ':',
          digitChar (timeinfo.tm_min.toNat / 10), digitChar timeinfo.tm_min.toNat, ':',
          digitChar (timeinfo.tm_sec.toNat / 10), digitChar timeinfo.tm_sec.toNat] ∧
      (getCurrentTimeString now buf board).1.length = 19 ∧
      isTimestampShape (getCurrentTimeString now buf board).1.toList = true ∧
      (getCurrentTimeString now buf board).1.utf8ByteSize + 1 = 20 ∧
      (getCurrentTimeString now buf board).1.utf8ByteSize + 1 ≤ 25 := by
  have hsame : timeinfo = now ∧ 2016 - 1900 < now.tm_year := by
    unfold getLocalTime at hclock
    split at hclock
    · rename_i hgt
      exact ⟨(Option.some.inj hclock).symm, hgt⟩
    · cases hclock
  obtain ⟨rfl, hsync⟩ := hsame
  have hstring := getCurrentTimeString_synchronized timeinfo buf board hrange (by omega) hyear
    hclock
  have hcolon : ':'.utf8Size = 1 := by decide
  have hdash : '-'.utf8Size = 1 := by decide
  have hT : 'T'.utf8Size = 1 := by decide
  rw [hstring]
  refine ⟨rfl, rfl, ?_, ?_, ?_⟩
  · simp [isTimestampShape, isDigit_digitChar]
  · simp [String.utf8ByteSize, String.utf8ByteSize.go, utf8Size_digitChar, hcolon, hdash, hT]
  · simp [String.utf8ByteSize, String.utf8ByteSize.go, utf8Size_digitChar, hcolon, hdash, hT]

/-- Witness of C9: the clock shows 31 December 9999, 23:59:60. -/
theorem getCurrentTimeString_timestamp_witness :
    (getCurrentTimeString ⟨60, 59, 23, 31, 11, 8099⟩ "" ⟨fun _ => .LOW, []⟩).1 =
        String.mk [digitChar (((8099 : Int) + 1900).toNat / 1000),
          digitChar (((8099 : Int) + 1900).toNat / 100),
          digitChar (((8099 : Int) + 1900).toNat / 10),
          digitChar ((8099 : Int) + 1900).toNat, '-',
          digitChar (((11 : Int) + 1).toNat / 10), digitChar ((11 : Int) + 1).toNat, '-',
          digitChar ((31 : Int).toNat / 10), digitChar (31 : Int).toNat, 'T',
          digitChar ((23 : Int).toNat / 10), digitChar (23 : Int).toNat, ':',
          digitChar ((59 : Int).toNat / 10), digitChar (59 : Int).toNat, ':',
          digitChar ((60 : Int).toNat / 10), digitChar (60 : Int).toNat] ∧
      (getCurrentTimeString ⟨60, 59, 23, 31, 11, 8099⟩ "" ⟨fun _ => .LOW, []⟩).1.length = 19 ∧
      isTimestampShape
        (getCurrentTimeString ⟨60, 59, 23, 31, 11, 8099⟩ "" ⟨fun _ => .LOW, []⟩).1.toList = true ∧
      (getCurrentTimeString ⟨60, 59, 23, 31, 11, 8099⟩ "" ⟨fun _ => .LOW,
        []⟩).1.utf8ByteSize + 1 = 20 ∧
      (getCurrentTimeString ⟨60, 59, 23, 31, 11, 8099⟩ "" ⟨fun _ => .LOW,
        []⟩).1.utf8ByteSize + 1 ≤ 25 :=
  getCurrentTimeString_timestamp ⟨60, 59, 23, 31, 11, 8099⟩ ⟨60, 59, 23, 31, 11, 8099⟩ ""
    ⟨fun _ => .LOW, []⟩ (by unfold Tm.inRange; decide) (by decide) (by decide)

/-! ## The bounds of the reader are never reached

The loops of the reader are bounded by the length of the input. Every step of a loop takes at
least one character, so a larger bound gives the same result. -/

theorem skipSpaces_length (input : List Char) : (skipSpaces input).length ≤ input.length := by
  induction input with
  | nil => simp [skipSpaces]
  | cons c rest ih =>
    unfold skipSpaces
    split
    · simp; omega
    · simp

theorem parseHex4_length (input : List Char) (n : Nat) (rest : List Char)
    (h : parseHex4 input = .ok (n, rest)) : rest.length < input.length := by
  unfold parseHex4 at h
  split at h
  · split at h
    · cases h
      simp only [List.length_cons]
      omega
    · cases h
  · cases h

theorem parseLowSurrogate_length (high : Nat) (input : List Char) (c : Char) (rest : List Char)
    (h : parseLowSurrogate high input = .ok (c, rest)) : rest.length < input.length := by
  unfold parseLowSurrogate at h
  split at h
  · cases h
  · cases h
  · split at h
    · split at h
      · cases h
      · rename_i low rest2 hhex
        have := parseHex4_length _ _ _ hhex
        split at h
        · have hrest : rest2 = rest := (Prod.mk.inj (Except.ok.inj h)).2
          subst hrest
          simp only [List.length_cons]
          omega
        · cases h
    · cases h

theorem parseEscape_length (input : List Char) (c : Char) (rest : List Char)
    (h : parseEscape input = .ok (c, rest)) : rest.length < input.length := by
  unfold parseEscape at h
  split at h
  · cases h
  · split at h
    · split at h
      · cases h
      · rename_i unit rest2 hhex
        have hlen := parseHex4_length _ _ _ hhex
        split at h
        · have := parseLowSurrogate_length _ _ _ _ h
          simp only [List.length_cons]
          omega
        · split at h
          · cases h
          · have hrest : rest2 = rest := (Prod.mk.inj (Except.ok.inj h)).2
            subst hrest
            simp only [List.length_cons]
            omega
    · split at h
      · cases h
      · have hrest := (Prod.mk.inj (Except.ok.inj h)).2
        subst hrest
        simp

/-- A larger bound on the characters of a string gives the same result. -/
theorem parseStringBody_fuel (fuel fuel2 : Nat) (input acc : List Char)
    (h : input.length < fuel) (h2 : input.length < fuel2) :
    parseStringBody fuel input acc = parseStringBody fuel2 input acc := by
  induction fuel generalizing fuel2 input acc with
  | zero => omega
  | succ fuel ih =>
    cases fuel2 with
    | zero => omega
    | succ fuel2 =>
      cases input with
      | nil => rfl
      | cons c rest =>
        simp only [List.length_cons] at h h2
        unfold parseStringBody
        simp only []
        split
        · rfl
        · split
          · split
            · rfl
            · rename_i ch rest2 hesc
              have := parseEscape_length _ _ _ hesc
              exact ih fuel2 rest2 _ (by omega) (by omega)
          · split
            · rfl
            · exact ih fuel2 rest _ (by omega) (by omega)

theorem parseStringBody_length (fuel : Nat) (input acc : List Char) (s : String)
    (rest : List Char) (h : parseStringBody fuel input acc = .ok (s, rest)) :
    rest.length < input.length := by
  induction fuel generalizing input acc with
  | zero => cases h
  | succ fuel ih =>
    cases input with
    | nil => cases h
    | cons c rest0 =>
      unfold parseStringBody at h
      simp only [] at h
      split at h
      · cases h
        simp
      · split at h
        · split at h
          · cases h
          · rename_i ch rest2 hesc
            have := parseEscape_length _ _ _ hesc
            have := ih _ _ h
            simp
            omega
        · split at h
          · cases h
          · have := ih _ _ h
            simp
            omega

theorem parseQuotedString_length (input : List Char) (s : String) (rest : List Char)
    (h : parseQuotedString input = .ok (s, rest)) : rest.length < input.length :=
  parseStringBody_length _ _ _ _ _ h

theorem skipKeyword_length (keyword input rest : List Char)
    (h : skipKeyword keyword input = .ok rest) : rest.length ≤ input.length := by
  induction keyword generalizing input with
  | nil =>
    cases input <;> simp [skipKeyword] at h <;> subst h <;> simp
  | cons k keyword ih =>
    cases input with
    | nil => simp [skipKeyword] at h
    | cons c input =>
      unfold skipKeyword at h
      split at h
      · have := ih _ h
        simp only [List.length_cons]
        omega
      · cases h

theorem takeDigits_length (input : List Char) :
    (takeDigits input).1.length + (takeDigits input).2.length = input.length := by
  induction input with
  | nil => simp [takeDigits]
  | cons c rest ih =>
    unfold takeDigits
    split
    · simp only [List.length_cons]
      omega
    · simp

theorem parseIntegral_length (input int rest : List Char)
    (h : parseIntegral input = .ok (int, rest)) : rest.length < input.length := by
  have hlen := takeDigits_length input
  unfold parseIntegral at h
  simp only [] at h
  split at h
  · cases h
  · rename_i hne
    split at h
    · cases h
    · have h1 := (Prod.mk.inj (Except.ok.inj h)).1
      have h2 := (Prod.mk.inj (Except.ok.inj h)).2
      rw [← h2]
      have : 0 < (takeDigits input).1.length := List.length_pos.mpr hne
      omega

theorem parseFraction_length (input frac rest : List Char)
    (h : parseFraction input = .ok (frac, rest)) : rest.length ≤ input.length := by
  unfold parseFraction at h
  split at h
  · cases h
    simp
  · rename_i c rest0
    have hlen := takeDigits_length rest0
    split at h
    · split at h
      · cases h
      · have h2 := (Prod.mk.inj (Except.ok.inj h)).2
        rw [← h2]
        simp only [List.length_cons]
        omega
    · have h2 := (Prod.mk.inj (Except.ok.inj h)).2
      rw [← h2]

theorem parseExponentDigits_length (negative : Bool) (input : List Char) (e : Option Int)
    (rest : List Char) (h : parseExponentDigits negative input = .ok (e, rest)) :
    rest.length ≤ input.length := by
  have hlen := takeDigits_length input
  unfold parseExponentDigits at h
  split at h
  · cases h
  · have h2 := (Prod.mk.inj (Except.ok.inj h)).2
    rw [← h2]
    omega

theorem parseExponent_length (input : List Char) (e : Option Int) (rest : List Char)
    (h : parseExponent input = .ok (e, rest)) : rest.length ≤ input.length := by
  unfold parseExponent at h
  split at h
  · cases h
    simp
  · split at h
    · split at h
      · cases h
      · split at h
        · have := parseExponentDigits_length _ _ _ _ h
          simp only [List.length_cons]
          omega
        · split at h
          · have := parseExponentDigits_length _ _ _ _ h
            simp only [List.length_cons]
            omega
          · have := parseExponentDigits_length _ _ _ _ h
            simp only [List.length_cons] at this ⊢
            omega
    · have h2 := (Prod.mk.inj (Except.ok.inj h)).2
      rw [← h2]

theorem parseNumericValue_length (input : List Char) (v : JsonVariant) (rest : List Char)
    (h : parseNumericValue input = .ok (v, rest)) : rest.length < input.length := by
  unfold parseNumericValue at h
  simp only [] at h
  split at h
  · cases h
  · rename_i int rest1 hint
    have h1 := parseIntegral_length _ _ _ hint
    have htail : (if decide (input.head? = some '-') = true then input.tail else input).length ≤
        input.length := by
      split
      · simp
      · exact le_refl _
    split at h
    · cases h
    · rename_i frac rest2 hfrac
      have h2 := parseFraction_length _ _ _ hfrac
      split at h
      · cases h
      · rename_i e rest3 hexp
        have h3 := parseExponent_length _ _ _ hexp
        have h4 := (Prod.mk.inj (Except.ok.inj h)).2
        rw [← h4]
        omega

/-- A larger bound on the elements of an array gives the same result, for a reader of
elements that takes at least one character. -/
theorem parseElements_fuel (parseElement : List Char → Reader JsonVariant)
    (hconsume : ∀ i v r, parseElement i = .ok (v, r) → r.length < i.length)
    (fuel fuel2 : Nat) (input : List Char) (acc : List JsonVariant)
    (h : input.length < fuel) (h2 : input.length < fuel2) :
    parseElements parseElement fuel input acc = parseElements parseElement fuel2 input acc := by
  induction fuel generalizing fuel2 input acc with
  | zero => omega
  | succ fuel ih =>
    cases fuel2 with
    | zero => omega
    | succ fuel2 =>
      unfold parseElements
      split
      · rfl
      · rename_i v rest hv
        have hlen := hconsume _ _ _ hv
        have hskip := skipSpaces_length rest
        split
        · rfl
        · rename_i c rest2 hrest
          rw [hrest] at hskip
          simp only [List.length_cons] at hskip
          split
          · rfl
          · split
            · exact ih fuel2 rest2 _ (by omega) (by omega)
            · rfl

theorem parseElements_length (parseElement : List Char → Reader JsonVariant)
    (hconsume : ∀ i v r, parseElement i = .ok (v, r) → r.length < i.length)
    (fuel : Nat) (input : List Char) (acc elements : List JsonVariant) (rest : List Char)
    (h : parseElements parseElement fuel input acc = .ok (elements, rest)) :
    rest.length < input.length := by
  induction fuel generalizing input acc with
  | zero => cases h
  | succ fuel ih =>
    unfold parseElements at h
    split at h
    · cases h
    · rename_i v rest1 hv
      have hlen := hconsume _ _ _ hv
      have hskip := skipSpaces_length rest1
      split at h
      · cases h
      · rename_i c rest2 hrest
        rw [hrest] at hskip
        simp only [List.length_cons] at hskip
        split at h
        · have h2 := (Prod.mk.inj (Except.ok.inj h)).2
          rw [← h2]
          omega
        · split at h
          · have := ih _ _ h
            omega
          · cases h

theorem parseArray_length (parseElement : List Char → Reader JsonVariant)
    (hconsume : ∀ i v r, parseElement i = .ok (v, r) → r.length < i.length)
    (input : List Char) (v : JsonVariant) (rest : List Char)
    (h : parseArray parseElement input = .ok (v, rest)) : rest.length < input.length := by
  have hskip := skipSpaces_length input
  unfold parseArray at h
  split at h
  · cases h
  · rename_i c rest1 hrest
    rw [hrest] at hskip
    simp only [List.length_cons] at hskip
    split at h
    · have h2 := (Prod.mk.inj (Except.ok.inj h)).2
      rw [← h2]
      omega
    · split at h
      · cases h
      · rename_i elements rest2 helems
        have := parseElements_length parseElement hconsume _ _ _ _ _ helems
        have h2 := (Prod.mk.inj (Except.ok.inj h)).2
        rw [← h2]
        simp only [List.length_cons] at this
        omega

/-- A larger bound on the members of an object gives the same result, for a reader of
values that takes at least one character. -/
theorem parseMembers_fuel (parseElement : List Char → Reader JsonVariant)
    (hconsume : ∀ i v r, parseElement i = .ok (v, r) → r.length < i.length)
    (fuel fuel2 : Nat) (input : List Char) (acc : List (String × JsonVariant))
    (h : input.length < fuel) (h2 : input.length < fuel2) :
    parseMembers parseElement fuel input acc = parseMembers parseElement fuel2 input acc := by
  induction fuel generalizing fuel2 input acc with
  | zero => omega
  | succ fuel ih =>
    cases fuel2 with
    | zero => omega
    | succ fuel2 =>
      have hskip0 := skipSpaces_length input
      unfold parseMembers
      split
      · rfl
      · rename_i q afterQuote hinput
        rw [hinput] at hskip0
        simp only [List.length_cons] at hskip0
        split
        · split
          · rfl
          · rename_i key rest hkey
            have hlen1 := parseQuotedString_length _ _ _ hkey
            have hskip1 := skipSpaces_length rest
            split
            · rfl
            · rename_i colon rest2 hrest
              rw [hrest] at hskip1
              simp only [List.length_cons] at hskip1
              split
              · split
                · rfl
                · rename_i v rest3 hv
                  have hlen2 := hconsume _ _ _ hv
                  have hskip2 := skipSpaces_length rest3
                  split
                  · rfl
                  · rename_i c rest4 hrest3
                    rw [hrest3] at hskip2
                    simp only [List.length_cons] at hskip2
                    split
                    · rfl
                    · split
                      · exact ih fuel2 rest4 _ (by omega) (by omega)
                      · rfl
              · rfl
        · rfl

theorem parseMembers_length (parseElement : List Char → Reader JsonVariant)
    (hconsume : ∀ i v r, parseElement i = .ok (v, r) → r.length < i.length)
    (fuel : Nat) (input : List Char) (acc members : List (String × JsonVariant))
    (rest : List Char)
    (h : parseMembers parseElement fuel input acc = .ok (members, rest)) :
    rest.length < input.length := by
  induction fuel generalizing input acc with
  | zero => cases h
  | succ fuel ih =>
    have hskip0 := skipSpaces_length input
    unfold parseMembers at h
    split at h
    · cases h
    · rename_i q afterQuote hinput
      rw [hinput] at hskip0
      simp only [List.length_cons] at hskip0
      split at h
      · split at h
        · cases h
        · rename_i key rest1 hkey
          have hlen1 := parseQuotedString_length _ _ _ hkey
          have hskip1 := skipSpaces_length rest1
          split at h
          · cases h
          · rename_i colon rest2 hrest
            rw [hrest] at hskip1
            simp only [List.length_cons] at hskip1
            split at h
            · split at h
              · cases h
              · rename_i v rest3 hv
                have hlen2 := hconsume _ _ _ hv
                have hskip2 := skipSpaces_length rest3
                split at h
                · cases h
                · rename_i c rest4 hrest3
                  rw [hrest3] at hskip2
                  simp only [List.length_cons] at hskip2
                  split at h
                  · have h2 := (Prod.mk.inj (Except.ok.inj h)).2
                    rw [← h2]
                    omega
                  · split at h
                    · have := ih _ _ h
                      omega
                    · cases h
            · cases h
      · cases h

theorem parseObject_length (parseElement : List Char → Reader JsonVariant)
    (hconsume : ∀ i v r, parseElement i = .ok (v, r) → r.length < i.length)
    (input : List Char) (v : JsonVariant) (rest : List Char)
    (h : parseObject parseElement input = .ok (v, rest)) : rest.length < input.length := by
  have hskip := skipSpaces_length input
  unfold parseObject at h
  split at h
  · cases h
  · rename_i c rest1 hrest
    rw [hrest] at hskip
    simp only [List.length_cons] at hskip
    split at h
    · have h2 := (Prod.mk.inj (Except.ok.inj h)).2
      rw [← h2]
      omega
    · split at h
      · cases h
      · rename_i members rest2 hmembers
        have := parseMembers_length parseElement hconsume _ _ _ _ _ hmembers
        have h2 := (Prod.mk.inj (Except.ok.inj h)).2
        rw [← h2]
        simp only [List.length_cons] at this
        omega

/-- Reading a value takes at least one character. -/
theorem parseVariant_length (nestingLimit : Nat) (found : Bool) (input : List Char)
    (v : JsonVariant) (rest : List Char)
    (h : parseVariant nestingLimit found input = .ok (v, rest)) :
    rest.length < input.length := by
  induction nestingLimit generalizing found input v rest with
  | zero =>
    have hskip := skipSpaces_length input
    unfold parseVariant at h
    split at h
    · cases h
    · rename_i c rest1 hrest
      rw [hrest] at hskip
      simp only [List.length_cons] at hskip
      split at h
      · cases h
      · split at h
        · cases h
        · split at h
          · split at h
            · cases h
            · rename_i s rest2 hs
              have := parseQuotedString_length _ _ _ hs
              have h2 := (Prod.mk.inj (Except.ok.inj h)).2
              rw [← h2]
              omega
          · split at h
            · split at h
              · cases h
              · rename_i rest2 hk
                have := skipKeyword_length _ _ _ hk
                have h2 := (Prod.mk.inj (Except.ok.inj h)).2
                rw [← h2]
                omega
            · split at h
              · split at h
                · cases h
                · rename_i rest2 hk
                  have := skipKeyword_length _ _ _ hk
                  have h2 := (Prod.mk.inj (Except.ok.inj h)).2
                  rw [← h2]
                  omega
              · split at h
                · split at h
                  · cases h
                  · rename_i rest2 hk
                    have := skipKeyword_length _ _ _ hk
                    have h2 := (Prod.mk.inj (Except.ok.inj h)).2
                    rw [← h2]
                    omega
                · have := parseNumericValue_length _ _ _ h
                  simp only [List.length_cons] at this
                  omega
  | succ n ih =>
    have hskip := skipSpaces_length input
    have hconsume : ∀ i v r, (fun i => parseVariant n true i) i = .ok (v, r) →
        r.length < i.length := fun i v r hi => ih true i v r hi
    unfold parseVariant at h
    split at h
    · cases h
    · rename_i c rest1 hrest
      rw [hrest] at hskip
      simp only [List.length_cons] at hskip
      split at h
      · have := parseArray_length _ hconsume _ _ _ h
        omega
      · split at h
        · have := parseObject_length _ hconsume _ _ _ h
          omega
        · split at h
          · split at h
            · cases h
            · rename_i s rest2 hs
              have := parseQuotedString_length _ _ _ hs
              have h2 := (Prod.mk.inj (Except.ok.inj h)).2
              rw [← h2]
              omega
          · split at h
            · split at h
              · cases h
              · rename_i rest2 hk
                have := skipKeyword_length _ _ _ hk
                have h2 := (Prod.mk.inj (Except.ok.inj h)).2
                rw [← h2]
                omega
            · split at h
              · split at h
                · cases h
                · rename_i rest2 hk
                  have := skipKeyword_length _ _ _ hk
                  have h2 := (Prod.mk.inj (Except.ok.inj h)).2
                  rw [← h2]
                  omega
              · split at h
                · split at h
                  · cases h
                  · rename_i rest2 hk
                    have := skipKeyword_length _ _ _ hk
                    have h2 := (Prod.mk.inj (Except.ok.inj h)).2
                    rw [← h2]
                    omega
                · have := parseNumericValue_length _ _ _ h
                  simp only [List.length_cons] at this
                  omega

/-- The bounds the reader uses are never what ends a loop: for every nesting limit, a string,
an array and an object read with any larger bound give the same result. -/
theorem reader_bounds_adequate (nestingLimit fuel : Nat) (input : List Char) (chars : List Char)
    (elements : List JsonVariant) (members : List (String × JsonVariant))
    (h : input.length < fuel) :
    parseStringBody fuel input chars = parseStringBody (input.length + 1) input chars ∧
      parseElements (fun i => parseVariant nestingLimit true i) fuel input elements =
        parseElements (fun i => parseVariant nestingLimit true i) (input.length + 1) input
          elements ∧
      parseMembers (fun i => parseVariant nestingLimit true i) fuel input members =
        parseMembers (fun i => parseVariant nestingLimit true i) (input.length + 1) input
          members := by
  have hconsume : ∀ i v r, (fun i => parseVariant nestingLimit true i) i = .ok (v, r) →
      r.length < i.length := fun i v r hi => parseVariant_length nestingLimit true i v r hi
  exact ⟨parseStringBody_fuel _ _ _ _ h (by omega),
    parseElements_fuel _ hconsume _ _ _ _ h (by omega),
    parseMembers_fuel _ hconsume _ _ _ _ h (by omega)⟩

end SmartHub
